import Mathlib

/-!
Verification of the webhook receiver `src/main.py`.

The core under study is `AvroStringParser` with its two regex-based
extraction strategies, the fallback record constructor, and the
in-memory store manipulated by the HTTP handlers
(`receive_transaction`, `get_transactions`, `reset_counters`).

Embedding notes.
* Python strings are sequences of code points; we model them as
  `String`/`List Char`.
* The two regexes used by `_extract_string_value` are
  pattern 1 and pattern 2 below.  Both are concatenations of literal
  characters, of whitespace gaps matching a greedy run of whitespace
  characters, and of exactly one greedy capture group matching one or
  more non-quote characters.  In each regex every greedy class
  (whitespace run, non-quote run) is immediately followed by a literal
  character that the class itself cannot match, so the backtracking
  regex engine behaves exactly like the deterministic maximal-munch
  matcher `matchToks` defined here.  `re.search` tries the pattern at
  every start position from the left and keeps the first success;
  `reSearch` does the same.
* `datetime.now()` is modelled by explicit `now`/`nowIso` parameters.
* In `parse_avro_string`, no statement of the `try` block can raise for
  any `str` input (regex search over a `str`, slicing, and constructing
  the pydantic model with five strings never throw), so the model of
  the happy path is a plain total function; the `except` branch
  `_create_fallback_transaction` is modelled separately and its claims
  are proved about that model.
-/

/-- The double-quote character, code point 34. -/
def dquote : Char := Char.ofNat 34

/-- The opening-brace character, code point 123. -/
def lbrace : Char := Char.ofNat 123

/-- The closing-brace character, code point 125. -/
def rbrace : Char := Char.ofNat 125

/-- Python regex class handled by the token matcher: a character class
matched by one text character or a greedy run. -/
inductive Tok where
  | lit : Char → Tok
  | ws : Tok
  | cap : Tok
deriving DecidableEq, Repr

/-- The `re` class for the whitespace gap matched by the regex
construct backslash-s-star: ASCII whitespace (space, tab, line feed,
carriage return, vertical tab, form feed).  All inputs appearing in the
claims are ASCII, so the additional Unicode whitespace characters that
Python would also accept are irrelevant here. -/
def isWS (c : Char) : Bool :=
  c == ' ' || c == '\t' || c == '\n' || c == '\r' ||
    c == Char.ofNat 11 || c == Char.ofNat 12

/-- Character class of the capture group: any character other than a
double quote. -/
def notQuote (c : Char) : Bool := decide (c ≠ dquote)

/-- Deterministic matcher for the anchored regexes of
`_extract_string_value`, returning the text of the capture group on
success.  `Tok.ws` consumes a maximal whitespace run, `Tok.cap` a
maximal non-empty non-quote run. -/
def matchToks : List Tok → List Char → Option (List Char)
  | [], _ => some []
  | Tok.lit _ :: _, [] => none
  | Tok.lit c :: ts, x :: xs => if x = c then matchToks ts xs else none
  | Tok.ws :: ts, s => matchToks ts (s.dropWhile isWS)
  | Tok.cap :: ts, s =>
    if s.takeWhile notQuote = [] then none
    else (matchToks ts (s.dropWhile notQuote)).map (fun _ => s.takeWhile notQuote)

/-- Model of `re.search`: try the anchored match at every start
position from left to right and return the first success. -/
def reSearch (toks : List Tok) : List Char → Option (List Char)
  | [] => matchToks toks []
  | x :: xs =>
    match matchToks toks (x :: xs) with
    | some v => some v
    | none => reSearch toks xs

/-- Literal character sequence inside a regex. -/
def lits (l : List Char) : List Tok := l.map Tok.lit

/-- The characters of the word string, the fixed tag of the union
wrapper form. -/
def stringWord : List Char := ['s', 't', 'r', 'i', 'n', 'g']

/-- Pattern 1 of `_extract_string_value` (main.py line 75), the wrapped
union form: quote, field name, quote, gap, colon, gap, open brace, gap,
quote, the word string, quote, gap, colon, gap, quote, capture of one
or more non-quote characters, quote, gap, close brace. -/
def pattern1 (field : String) : List Tok :=
  Tok.lit dquote :: (lits field.data ++
    Tok.lit dquote :: Tok.ws :: Tok.lit ':' :: Tok.ws :: Tok.lit lbrace ::
      Tok.ws :: Tok.lit dquote :: (lits stringWord ++
        [Tok.lit dquote, Tok.ws, Tok.lit ':', Tok.ws, Tok.lit dquote,
         Tok.cap, Tok.lit dquote, Tok.ws, Tok.lit rbrace]))

/-- Pattern 2 of `_extract_string_value` (main.py line 81), the bare
form: quote, field name, quote, gap, colon, gap, quote, capture of one
or more non-quote characters, quote. -/
def pattern2 (field : String) : List Tok :=
  Tok.lit dquote :: (lits field.data ++
    [Tok.lit dquote, Tok.ws, Tok.lit ':', Tok.ws, Tok.lit dquote,
     Tok.cap, Tok.lit dquote])

/-- Model of `AvroStringParser._extract_string_value`: search pattern 1,
then pattern 2, and fall back to the sentinel. -/
def extract_string_value (avro_string : String) (field_name : String) : String :=
  match reSearch (pattern1 field_name) avro_string.data with
  | some v => String.mk v
  | none =>
    match reSearch (pattern2 field_name) avro_string.data with
    | some v => String.mk v
    | none => "UNKNOWN"

/-- Model of the pydantic `TransactionData`.  The five extracted fields
are declared `Optional` with string defaults in the source; the
timestamp `received_at` is modelled as a `Nat`. -/
structure TransactionData where
  authorizer_usrnbr : Option String := some "UNKNOWN"
  creat_usrnbr : Option String := some "UNKNOWN"
  creat_time : Option String := some ""
  data : Option String := some ""
  usrname : Option String := some "UNKNOWN"
  received_at : Nat := 0
deriving DecidableEq, Repr

/-- Model of `AvroStringParser.parse_avro_string`'s `try` body: extract
the five known fields and assemble the record; `now` stands for the
wall clock read by the `received_at` default factory. -/
def parse_avro_string (raw_data : String) (now : Nat) : TransactionData :=
  { authorizer_usrnbr := some (extract_string_value raw_data "authorizer_usrnbr")
    creat_usrnbr := some (extract_string_value raw_data "creat_usrnbr")
    creat_time := some (extract_string_value raw_data "creat_time")
    data := some (extract_string_value raw_data "data")
    usrname := some (extract_string_value raw_data "usrname")
    received_at := now }

/-- Model of `AvroStringParser._create_fallback_transaction`:
`nowIso` stands for `datetime.now().isoformat()` and `now` for the
`received_at` default factory. -/
def create_fallback_transaction (raw_data : String) (error_msg : String)
    (nowIso : String) (now : Nat) : TransactionData :=
  { authorizer_usrnbr := some "PARSE_ERROR"
    creat_usrnbr := some "PARSE_ERROR"
    creat_time := some nowIso
    data := some (String.mk (raw_data.data.take 200 ++
      (if 200 < raw_data.data.length then "...".data else [])))
    usrname := some ("ERROR: " ++ String.mk (error_msg.data.take 50))
    received_at := now }

/-- A record is fully populated when none of its optional fields is
`None`. -/
def fully_populated (t : TransactionData) : Bool :=
  t.authorizer_usrnbr.isSome && t.creat_usrnbr.isSome && t.creat_time.isSome &&
    t.data.isSome && t.usrname.isSome

/-- The module-level mutable state of main.py: `transaction_counter`
and `transaction_storage`. -/
structure Store where
  transaction_counter : Nat
  transaction_storage : List TransactionData
deriving DecidableEq, Repr

/-- The initial module state (counter 0, empty list). -/
def emptyStore : Store := { transaction_counter := 0, transaction_storage := [] }

/-- The trimming step of the POST handler (main.py lines 120 to 121):
when the list has grown beyond 10 entries keep only its last 10, the
Python slice from index minus 10. -/
def evict (l : List TransactionData) : List TransactionData :=
  if 10 < l.length then l.drop (l.length - 10) else l

/-- The state transition of the POST handler `receive_transaction`:
append the parsed record, increment the counter, and trim the list to
its last 10 elements when it exceeded the capacity. -/
def receive_step (s : Store) (t : TransactionData) : Store :=
  { transaction_counter := s.transaction_counter + 1
    transaction_storage := evict (s.transaction_storage ++ [t]) }

/-- The POST handler `receive_transaction` on a raw body: parse, then
store. -/
def receive_transaction (s : Store) (raw_data : String) (now : Nat) : Store :=
  receive_step s (parse_avro_string raw_data now)

/-- Model of the response body of the GET handler. -/
structure TransactionResponse where
  total_count : Nat
  last_10_transactions : List TransactionData
  last_updated : Nat
  poc_status : String := "active"
  processing_mode : String := "python_avro"
deriving DecidableEq, Repr

/-- The GET handler `get_transactions`: build the response from the
reversed storage list (newest first); the handler does not assign the
globals, so the state component of the result is the input state. -/
def get_transactions (s : Store) (now : Nat) : TransactionResponse × Store :=
  ({ total_count := s.transaction_counter
     last_10_transactions := s.transaction_storage.reverse
     last_updated := now }, s)

/-- The POST handler `reset_counters`: set the counter to 0 and the
storage to the empty list in one handler invocation. -/
def reset_counters (_s : Store) : Store :=
  { transaction_counter := 0, transaction_storage := [] }

/-- Unfolding lemma: a literal token consumes an equal head character. -/
theorem matchToks_lit_self (c : Char) (ts : List Tok) (xs : List Char) :
    matchToks (Tok.lit c :: ts) (c :: xs) = matchToks ts xs := by
  simp [matchToks]

/-- Unfolding lemma: a literal sequence consumes an equal text block. -/
theorem matchToks_lits_self (l : List Char) (ts : List Tok) (rest : List Char) :
    matchToks (lits l ++ ts) (l ++ rest) = matchToks ts rest := by
  induction l with
  | nil => rfl
  | cons c l ih => simpa [lits, matchToks] using ih

/-- Unfolding lemma for the whitespace-gap token. -/
theorem matchToks_ws (ts : List Tok) (s : List Char) :
    matchToks (Tok.ws :: ts) s = matchToks ts (s.dropWhile isWS) := by
  simp [matchToks]

/-- Dropping a maximal whitespace run stops exactly at the first
non-whitespace character. -/
theorem dropWhile_ws_stop (w : List Char) (c : Char) (rest : List Char)
    (hw : ∀ x ∈ w, isWS x = true) (hc : isWS c = false) :
    (w ++ c :: rest).dropWhile isWS = c :: rest := by
  induction w with
  | nil => simp [List.dropWhile_cons, hc]
  | cons x w ih =>
    have hx := hw x (by simp)
    simp only [List.cons_append, List.dropWhile_cons, hx, if_true]
    exact ih (fun y hy => hw y (by simp [hy]))

/-- The whitespace-gap token consumes a whitespace run up to the next
non-whitespace character. -/
theorem matchToks_ws_stop (ts : List Tok) (w : List Char) (c : Char) (rest : List Char)
    (hw : ∀ x ∈ w, isWS x = true) (hc : isWS c = false) :
    matchToks (Tok.ws :: ts) (w ++ c :: rest) = matchToks ts (c :: rest) := by
  rw [matchToks_ws, dropWhile_ws_stop w c rest hw hc]

/-- Taking a maximal run of characters satisfying `p` stops exactly at
the first character refuting `p`. -/
theorem takeWhile_stop (p : Char → Bool) (l : List Char) (b : Char) (r : List Char)
    (hl : ∀ x ∈ l, p x = true) (hb : p b = false) :
    (l ++ b :: r).takeWhile p = l := by
  induction l with
  | nil => simp [List.takeWhile_cons, hb]
  | cons x l ih =>
    have hx := hl x (by simp)
    simp only [List.cons_append, List.takeWhile_cons, hx, if_true, List.cons.injEq,
      true_and]
    exact ih (fun y hy => hl y (by simp [hy]))

/-- Dropping a maximal run of characters satisfying `p` stops exactly
at the first character refuting `p`. -/
theorem dropWhile_stop (p : Char → Bool) (l : List Char) (b : Char) (r : List Char)
    (hl : ∀ x ∈ l, p x = true) (hb : p b = false) :
    (l ++ b :: r).dropWhile p = b :: r := by
  induction l with
  | nil => simp [List.dropWhile_cons, hb]
  | cons x l ih =>
    have hx := hl x (by simp)
    simp only [List.cons_append, List.dropWhile_cons, hx, if_true]
    exact ih (fun y hy => hl y (by simp [hy]))

/-- The capture token consumes a maximal non-empty quote-free run up to
the closing quote. -/
theorem matchToks_cap_stop (ts : List Tok) (v y : List Char)
    (hv : v ≠ []) (hvq : ∀ c ∈ v, c ≠ dquote) :
    matchToks (Tok.cap :: ts) (v ++ dquote :: y)
      = (matchToks ts (dquote :: y)).map (fun _ => v) := by
  have hql : ∀ x ∈ v, notQuote x = true := by
    intro x hx
    simp [notQuote, hvq x hx]
  have hqb : notQuote dquote = false := by simp [notQuote]
  have ht := takeWhile_stop notQuote v dquote y hql hqb
  have hd := dropWhile_stop notQuote v dquote y hql hqb
  simp [matchToks, ht, hd, hv]

/-- Boolean test that `l` is an initial segment of `t`, used to reason
about failures of literal-sequence matching. -/
def isLead : List Char → List Char → Bool
  | [], _ => true
  | _ :: _, [] => false
  | c :: l, x :: t => decide (x = c) && isLead l t

/-- A literal sequence fails when it is not an initial segment of the
text. -/
theorem matchToks_lits_none (l : List Char) (ts : List Tok) (t : List Char)
    (h : isLead l t = false) : matchToks (lits l ++ ts) t = none := by
  induction l generalizing t with
  | nil => simp [isLead] at h
  | cons c l ih =>
    cases t with
    | nil => simp [lits, matchToks]
    | cons x t =>
      by_cases hx : x = c
      · subst hx
        simp only [isLead, decide_eq_true_eq, Bool.and_eq_false_iff] at h
        rcases h with h | h
        · simp at h
        · simpa [lits, matchToks] using ih t h
      · simp [lits, matchToks, hx]

/-- One step of the left-to-right scan when the anchored match at the
current position succeeds. -/
theorem reSearch_cons_some (ts : List Tok) (x : Char) (xs v : List Char)
    (h : matchToks ts (x :: xs) = some v) : reSearch ts (x :: xs) = some v := by
  simp [reSearch, h]

/-- One step of the left-to-right scan when the anchored match at the
current position fails. -/
theorem reSearch_cons_none (ts : List Tok) (x : Char) (xs : List Char)
    (h : matchToks ts (x :: xs) = none) : reSearch ts (x :: xs) = reSearch ts xs := by
  simp [reSearch, h]

/-- The scan skips any block none of whose characters can begin a match
of a pattern starting with the literal `a`. -/
theorem reSearch_skip (a : Char) (ts : List Tok) (l rest : List Char)
    (hl : ∀ c ∈ l, c ≠ a) :
    reSearch (Tok.lit a :: ts) (l ++ rest) = reSearch (Tok.lit a :: ts) rest := by
  induction l with
  | nil => rfl
  | cons c l ih =>
    have hc : c ≠ a := hl c (by simp)
    have hfail : matchToks (Tok.lit a :: ts) (c :: (l ++ rest)) = none := by
      simp [matchToks, hc]
    rw [List.cons_append, reSearch_cons_none _ _ _ hfail]
    exact ih (fun y hy => hl y (by simp [hy]))

/-- The raw text of a wrapped-form field declaration, the shape matched
by pattern 1: quote, field name, quote, whitespace `w1`, colon, `w2`,
open brace, `w3`, quote, the word string, quote, `w4`, colon, `w5`,
quote, value, quote, `w6`, close brace. -/
def wrappedDeclL (f w1 w2 w3 w4 w5 w6 v : List Char) : List Char :=
  dquote :: (f ++ dquote :: (w1 ++ ':' :: (w2 ++ lbrace :: (w3 ++ dquote ::
    (stringWord ++ dquote :: (w4 ++ ':' :: (w5 ++ dquote ::
      (v ++ dquote :: (w6 ++ [rbrace])))))))))

/-- The raw text of a bare-form field declaration, the shape matched by
pattern 2: quote, field name, quote, whitespace `w1`, colon, `w2`,
quote, value, quote. -/
def bareDeclL (f w1 w2 v : List Char) : List Char :=
  dquote :: (f ++ dquote :: (w1 ++ ':' :: (w2 ++ dquote :: (v ++ [dquote]))))

/-- Pattern 1 matches at the start of a wrapped-form declaration and
captures exactly the declared value. -/
theorem matchToks_p1_decl (f w1 w2 w3 w4 w5 w6 v post : List Char)
    (h1 : ∀ c ∈ w1, isWS c = true) (h2 : ∀ c ∈ w2, isWS c = true)
    (h3 : ∀ c ∈ w3, isWS c = true) (h4 : ∀ c ∈ w4, isWS c = true)
    (h5 : ∀ c ∈ w5, isWS c = true) (h6 : ∀ c ∈ w6, isWS c = true)
    (hv : v ≠ []) (hvq : ∀ c ∈ v, c ≠ dquote) :
    matchToks (pattern1 (String.mk f)) (wrappedDeclL f w1 w2 w3 w4 w5 w6 v ++ post)
      = some v := by
  show matchToks (Tok.lit dquote :: (lits f ++ _)) _ = some v
  unfold wrappedDeclL
  simp only [List.cons_append, List.append_assoc, List.singleton_append]
  rw [matchToks_lit_self, matchToks_lits_self, matchToks_lit_self,
    matchToks_ws_stop _ _ _ _ h1 (by decide), matchToks_lit_self,
    matchToks_ws_stop _ _ _ _ h2 (by decide), matchToks_lit_self,
    matchToks_ws_stop _ _ _ _ h3 (by decide), matchToks_lit_self,
    matchToks_lits_self, matchToks_lit_self,
    matchToks_ws_stop _ _ _ _ h4 (by decide), matchToks_lit_self,
    matchToks_ws_stop _ _ _ _ h5 (by decide), matchToks_lit_self,
    matchToks_cap_stop _ _ _ hv hvq, matchToks_lit_self,
    matchToks_ws_stop _ _ _ _ h6 (by decide), matchToks_lit_self]
  simp [matchToks]

/-- Pattern 2 matches at the start of a bare-form declaration and
captures exactly the declared value. -/
theorem matchToks_p2_decl (f w1 w2 v post : List Char)
    (h1 : ∀ c ∈ w1, isWS c = true) (h2 : ∀ c ∈ w2, isWS c = true)
    (hv : v ≠ []) (hvq : ∀ c ∈ v, c ≠ dquote) :
    matchToks (pattern2 (String.mk f)) (bareDeclL f w1 w2 v ++ post) = some v := by
  show matchToks (Tok.lit dquote :: (lits f ++ _)) _ = some v
  unfold bareDeclL
  simp only [List.cons_append, List.append_assoc, List.singleton_append]
  rw [matchToks_lit_self, matchToks_lits_self, matchToks_lit_self,
    matchToks_ws_stop _ _ _ _ h1 (by decide), matchToks_lit_self,
    matchToks_ws_stop _ _ _ _ h2 (by decide), matchToks_lit_self,
    matchToks_cap_stop _ _ _ hv hvq, matchToks_lit_self]
  simp [matchToks]

/-- Unfolding helper: the character list underlying a constructed
string. -/
theorem string_data_mk (l : List Char) : (String.mk l).data = l := rfl

/-- Unfolding helper: the length of a constructed string is the length
of its character list. -/
theorem string_length_mk (l : List Char) : (String.mk l).length = l.length := rfl

/-- A whitespace character is never the double quote. -/
theorem ws_ne_dquote (c : Char) (h : isWS c = true) : c ≠ dquote := by
  intro hq
  rw [hq] at h
  exact absurd h (by decide)

/-- An anchored match succeeding at the current position makes the scan
succeed with the same capture. -/
theorem reSearch_of_matchToks (ts : List Tok) (l v : List Char)
    (h : matchToks ts l = some v) : reSearch ts l = some v := by
  cases l with
  | nil => simpa [reSearch] using h
  | cons x xs => simp [reSearch, h]

/-- A literal-sequence head failure propagates: if `l` is not an
initial segment, neither is it after the text head changes beyond the
closing quote. -/
theorem isLead_extend_dquote (l a t : List Char)
    (hlq : ∀ c ∈ l, c ≠ dquote)
    (h : isLead l (a ++ [dquote]) = false) :
    isLead l (a ++ dquote :: t) = false := by
  induction a generalizing l with
  | nil =>
    cases l with
    | nil => simp [isLead] at h
    | cons c l' =>
      have hc : c ≠ dquote := hlq c (by simp)
      simp [isLead, Ne.symm hc]
  | cons x a' ih =>
    cases l with
    | nil => simp [isLead] at h
    | cons c l' =>
      by_cases hxc : x = c
      · have h' : isLead l' (a' ++ [dquote]) = false := by
          simpa [isLead, hxc] using h
        have hl' : ∀ c ∈ l', c ≠ dquote := fun c hc => hlq c (by simp [hc])
        simp [isLead, hxc, ih l' hl' h']
      · simp [isLead, hxc]

/-- A head mismatch refutes the initial-segment test. -/
theorem isLead_cons_ne (c x : Char) (l t : List Char) (h : x ≠ c) :
    isLead (c :: l) (x :: t) = false := by
  simp [isLead, h]

/-- An anchored match of a token list containing the capture token
never returns an empty capture, because the capture class requires at
least one character. -/
theorem matchToks_cap_ne_nil (ts : List Tok) (s v : List Char)
    (hmem : Tok.cap ∈ ts) (h : matchToks ts s = some v) : v ≠ [] := by
  induction ts generalizing s with
  | nil => simp at hmem
  | cons t ts ih =>
    cases t with
    | lit c =>
      have hmem' : Tok.cap ∈ ts := by simpa using hmem
      cases s with
      | nil => simp [matchToks] at h
      | cons x xs =>
        by_cases hx : x = c
        · rw [hx, matchToks_lit_self] at h
          exact ih xs hmem' h
        · simp [matchToks, hx] at h
    | ws =>
      have hmem' : Tok.cap ∈ ts := by simpa using hmem
      rw [matchToks_ws] at h
      exact ih _ hmem' h
    | cap =>
      by_cases ht : s.takeWhile notQuote = []
      · simp [matchToks, ht] at h
      · cases hm : matchToks ts (s.dropWhile notQuote) with
        | none => simp [matchToks, ht, hm] at h
        | some a =>
          simp only [matchToks, ht, hm, if_false, Option.map_some'] at h
          intro hv
          rw [hv] at h
          exact ht (Option.some.inj h)

/-- The scan inherits the non-empty capture guarantee. -/
theorem reSearch_cap_ne_nil (ts : List Tok) (l v : List Char)
    (hmem : Tok.cap ∈ ts) (h : reSearch ts l = some v) : v ≠ [] := by
  induction l with
  | nil =>
    simp only [reSearch] at h
    exact matchToks_cap_ne_nil ts [] v hmem h
  | cons x xs ih =>
    cases hm : matchToks ts (x :: xs) with
    | some w =>
      rw [reSearch_cons_some ts x xs w hm] at h
      cases h
      exact matchToks_cap_ne_nil ts (x :: xs) v hmem hm
    | none =>
      rw [reSearch_cons_none ts x xs hm] at h
      exact ih h

/-- Trimming always leaves at most 10 records. -/
theorem evict_length (l : List TransactionData) : (evict l).length ≤ 10 := by
  unfold evict
  split
  · simp only [List.length_drop]
    omega
  · omega

/-- Trimming commutes with later appends: trimming, appending more, and
trimming again gives the same list as appending everything and trimming
once, provided the first list exceeded the capacity by at most one,
which is the case after a single append. -/
theorem evict_evict_append (l ts : List TransactionData) (h : l.length ≤ 11) :
    evict (evict l ++ ts) = evict (l ++ ts) := by
  by_cases h10 : 10 < l.length
  · have hlen : l.length = 11 := by omega
    have hd : evict l = l.drop 1 := by
      unfold evict
      rw [if_pos h10, hlen]
    rw [hd]
    have hsplit : l.drop 1 ++ ts = (l ++ ts).drop 1 := by
      rw [List.drop_append_of_le_length (by omega)]
    rw [hsplit]
    unfold evict
    have hlen2 : ((l ++ ts).drop 1).length = 10 + ts.length := by
      simp only [List.length_drop, List.length_append]
      omega
    have hlen3 : (l ++ ts).length = 11 + ts.length := by
      simp only [List.length_append]
      omega
    rw [hlen2, hlen3]
    by_cases hts : ts = []
    · subst hts
      rw [if_neg (by simp), if_pos (by simp)]
      simp
    · have htsl : 0 < ts.length := List.length_pos.mpr hts
      rw [if_pos (by omega), if_pos (by omega), List.drop_drop]
      congr 1
      omega
  · unfold evict
    rw [if_neg h10]

/-- The counter counts every accepted record, independently of
eviction. -/
theorem receive_fold_counter (ts : List TransactionData) (s : Store) :
    (List.foldl receive_step s ts).transaction_counter
      = s.transaction_counter + ts.length := by
  induction ts generalizing s with
  | nil => simp
  | cons t ts ih =>
    show (List.foldl receive_step (receive_step s t) ts).transaction_counter = _
    rw [ih]
    simp [receive_step]
    omega

/-- The storage after a sequence of appends is the whole appended
sequence trimmed once to its last 10 elements. -/
theorem receive_fold_storage (ts : List TransactionData) (s : Store)
    (h : s.transaction_storage.length ≤ 10) :
    (List.foldl receive_step s ts).transaction_storage
      = evict (s.transaction_storage ++ ts) := by
  induction ts generalizing s with
  | nil =>
    simp only [List.foldl_nil, List.append_nil]
    unfold evict
    rw [if_neg (by omega)]
  | cons t ts ih =>
    have hstep : (receive_step s t).transaction_storage
        = evict (s.transaction_storage ++ [t]) := rfl
    have hstep_len : (receive_step s t).transaction_storage.length ≤ 10 := by
      rw [hstep]
      exact evict_length _
    calc (List.foldl receive_step s (t :: ts)).transaction_storage
        = (List.foldl receive_step (receive_step s t) ts).transaction_storage := rfl
      _ = evict ((receive_step s t).transaction_storage ++ ts) := ih _ hstep_len
      _ = evict (evict (s.transaction_storage ++ [t]) ++ ts) := by rw [hstep]
      _ = evict ((s.transaction_storage ++ [t]) ++ ts) := by
            exact evict_evict_append _ _ (by simp; omega)
      _ = evict (s.transaction_storage ++ (t :: ts)) := by simp

/-- C1: Totality of parsing — for every input string, `parse_avro_string`
is a total function returning a record in which every field carries a
value (never `None`), and the fallback constructor that absorbs any
failure of extraction or assembly likewise always yields a fully
populated record. -/
theorem C1_parse_totality (raw e iso : String) (now : Nat) :
    fully_populated (parse_avro_string raw now) = true ∧
    fully_populated (create_fallback_transaction raw e iso now) = true :=
  ⟨rfl, rfl⟩

/-- C2 counterexample: parsing the two-character input consisting of an
open and a close brace does not leave `creat_time` (creation_time) or
`data` (payload) at the empty string: the extractor returns the
sentinel for every missed field, so the claimed per-field model
defaults are never reached. -/
theorem C2_counterexample :
    (parse_avro_string (String.mk [lbrace, rbrace]) 0).creat_time ≠ some "" ∧
    (parse_avro_string (String.mk [lbrace, rbrace]) 0).data ≠ some "" := by
  decide

/-- C2 amended: parsing an input in which none of the five field
patterns match yields every one of the five extracted fields equal to
the sentinel "UNKNOWN"; the per-field model defaults (empty string for
creation_time and payload) are never used because the parser always
passes an explicit value for every field. -/
theorem C2_missing_fields_unknown :
    parse_avro_string (String.mk [lbrace, rbrace]) 0 =
      { authorizer_usrnbr := some "UNKNOWN", creat_usrnbr := some "UNKNOWN",
        creat_time := some "UNKNOWN", data := some "UNKNOWN",
        usrname := some "UNKNOWN", received_at := 0 } := by
  decide

/-- C8: Reset atomicity — the reset operation maps any state of the
store to the state with counter 0 and empty buffer in one transition,
and a read observing the post-reset state sees the zero count and the
empty record list together. -/
theorem C8_reset_atomicity (s : Store) (now : Nat) :
    (reset_counters s).transaction_counter = 0 ∧
    (reset_counters s).transaction_storage = [] ∧
    (get_transactions (reset_counters s) now).1.total_count = 0 ∧
    (get_transactions (reset_counters s) now).1.last_10_transactions = [] :=
  ⟨rfl, rfl, rfl, rfl⟩

/-- C9: Idempotent read — reading twice with no intervening append
returns the same total count and the same record sequence (newest
first, the reverse of the insertion order), the read leaves the store
unchanged, and only the freshness timestamp may differ between the two
responses. -/
theorem C9_idempotent_read (s : Store) (n1 n2 : Nat) :
    (get_transactions s n1).2 = s ∧
    (get_transactions ((get_transactions s n1).2) n2).1.total_count
      = (get_transactions s n1).1.total_count ∧
    (get_transactions ((get_transactions s n1).2) n2).1.last_10_transactions
      = (get_transactions s n1).1.last_10_transactions ∧
    (get_transactions s n1).1.last_10_transactions
      = s.transaction_storage.reverse :=
  ⟨rfl, rfl, rfl, rfl⟩

/-- C3: Wrapped-form extraction — for every raw text consisting of a
quote-free prefix, a wrapped-form declaration of the field with
arbitrary whitespace around the colons and braces, and an arbitrary
suffix, the extractor returns exactly the declared value (non-empty and
quote-free, as required by the capture class); in particular, when the
field is usrname (the source name of username), the parse of such an
input carries the declared value in its usrname field. -/
theorem C3_wrapped_form (pre post f w1 w2 w3 w4 w5 w6 v : List Char) (now : Nat)
    (hpre : ∀ c ∈ pre, c ≠ dquote)
    (h1 : ∀ c ∈ w1, isWS c = true) (h2 : ∀ c ∈ w2, isWS c = true)
    (h3 : ∀ c ∈ w3, isWS c = true) (h4 : ∀ c ∈ w4, isWS c = true)
    (h5 : ∀ c ∈ w5, isWS c = true) (h6 : ∀ c ∈ w6, isWS c = true)
    (hv : v ≠ []) (hvq : ∀ c ∈ v, c ≠ dquote) :
    extract_string_value
      (String.mk (pre ++ (wrappedDeclL f w1 w2 w3 w4 w5 w6 v ++ post)))
      (String.mk f) = String.mk v ∧
    (f = "usrname".data →
      (parse_avro_string
        (String.mk (pre ++ (wrappedDeclL f w1 w2 w3 w4 w5 w6 v ++ post)))
        now).usrname = some (String.mk v)) := by
  have hm := matchToks_p1_decl f w1 w2 w3 w4 w5 w6 v post h1 h2 h3 h4 h5 h6 hv hvq
  have hskip : reSearch (pattern1 (String.mk f))
      (pre ++ (wrappedDeclL f w1 w2 w3 w4 w5 w6 v ++ post))
      = reSearch (pattern1 (String.mk f))
        (wrappedDeclL f w1 w2 w3 w4 w5 w6 v ++ post) :=
    reSearch_skip dquote _ pre _ hpre
  have hs := hskip.trans (reSearch_of_matchToks _ _ _ hm)
  have hmain : extract_string_value
      (String.mk (pre ++ (wrappedDeclL f w1 w2 w3 w4 w5 w6 v ++ post)))
      (String.mk f) = String.mk v := by
    simp [extract_string_value, string_data_mk, hs]
  refine ⟨hmain, fun hf => ?_⟩
  subst hf
  show some (extract_string_value _ "usrname") = _
  exact congrArg some hmain

/-- C3 witness: parsing the concrete input made of the wrapped
declaration assigning usrname the value alice yields a record whose
usrname field is alice. -/
theorem C3_wrapped_form_witness :
    (parse_avro_string
      (String.mk ([] ++ (wrappedDeclL "usrname".data [] [' '] [] [] [' '] []
        "alice".data ++ []))) 0).usrname = some (String.mk "alice".data) :=
  (C3_wrapped_form [] [] "usrname".data [] [' '] [] [] [' '] [] "alice".data 0
    (by decide) (by decide) (by decide) (by decide) (by decide) (by decide)
    (by decide) (by decide) (by decide)).2 rfl

/-- C4: Bare-form extraction — for every raw text consisting of a
quote-free prefix, a bare-form declaration of the field, and an
arbitrary suffix, in which the wrapped-form pattern matches nowhere,
the extractor returns exactly the declared value. -/
theorem C4_bare_form (pre post f w1 w2 v : List Char) (now : Nat)
    (hpre : ∀ c ∈ pre, c ≠ dquote)
    (h1 : ∀ c ∈ w1, isWS c = true) (h2 : ∀ c ∈ w2, isWS c = true)
    (hv : v ≠ []) (hvq : ∀ c ∈ v, c ≠ dquote)
    (hnowrap : reSearch (pattern1 (String.mk f))
      (pre ++ (bareDeclL f w1 w2 v ++ post)) = none) :
    extract_string_value (String.mk (pre ++ (bareDeclL f w1 w2 v ++ post)))
      (String.mk f) = String.mk v ∧
    (f = "usrname".data →
      (parse_avro_string (String.mk (pre ++ (bareDeclL f w1 w2 v ++ post)))
        now).usrname = some (String.mk v)) := by
  have hm := matchToks_p2_decl f w1 w2 v post h1 h2 hv hvq
  have hskip : reSearch (pattern2 (String.mk f))
      (pre ++ (bareDeclL f w1 w2 v ++ post))
      = reSearch (pattern2 (String.mk f)) (bareDeclL f w1 w2 v ++ post) :=
    reSearch_skip dquote _ pre _ hpre
  have hs := hskip.trans (reSearch_of_matchToks _ _ _ hm)
  have hmain : extract_string_value
      (String.mk (pre ++ (bareDeclL f w1 w2 v ++ post)))
      (String.mk f) = String.mk v := by
    simp [extract_string_value, string_data_mk, hnowrap, hs]
  refine ⟨hmain, fun hf => ?_⟩
  subst hf
  show some (extract_string_value _ "usrname") = _
  exact congrArg some hmain

/-- C4 witness: parsing the concrete bare declaration assigning usrname
the value alice yields a record whose usrname field is alice. -/
theorem C4_bare_form_witness :
    (parse_avro_string
      (String.mk ([] ++ (bareDeclL "usrname".data [] [' '] "alice".data ++ [])))
      0).usrname = some (String.mk "alice".data) :=
  (C4_bare_form [] [] "usrname".data [] [' '] "alice".data 0
    (by decide) (by decide) (by decide) (by decide) (by decide) (by decide)).2 rfl

/-- C6: Fallback payload truncation — the payload carried by any
fallback record is the first 200 characters of the raw input with the
three-dot suffix appended exactly when the input exceeds 200
characters; consequently any input longer than 200 characters yields a
payload of length 203, and any input of at most 200 characters is
carried whole, without suffix. -/
theorem C6_fallback_truncation (raw e iso : String) (now : Nat) (p : String)
    (hp : (create_fallback_transaction raw e iso now).data = some p) :
    p = String.mk (raw.data.take 200 ++
        (if 200 < raw.data.length then "...".data else [])) ∧
    (200 < raw.length → p.length = 203) ∧
    (raw.length ≤ 200 → p = raw) := by
  have hpe : p = String.mk (raw.data.take 200 ++
      (if 200 < raw.data.length then "...".data else [])) := by
    have h := hp
    simp only [create_fallback_transaction, Option.some.injEq] at h
    exact h.symm
  subst hpe
  refine ⟨rfl, ?_, ?_⟩
  · intro hlen
    have h200 : 200 < raw.data.length := hlen
    rw [if_pos h200, string_length_mk]
    simp only [List.length_append, List.length_take]
    have hdots : "...".data.length = 3 := by decide
    rw [hdots]
    omega
  · intro hlen
    have h200 : raw.data.length ≤ 200 := hlen
    rw [if_neg (by omega), List.append_nil,
      List.take_of_length_le (by omega)]

set_option maxRecDepth 4096 in
/-- C6 witness: the fallback record built from a 300-character input
carries a payload of length 203. -/
theorem C6_fallback_truncation_witness :
    (create_fallback_transaction (String.mk (List.replicate 300 'a')) "" "" 0).data
      = some (String.mk ((String.mk (List.replicate 300 'a')).data.take 200 ++
        (if 200 < (String.mk (List.replicate 300 'a')).data.length
          then "...".data else []))) ∧
    (String.mk ((String.mk (List.replicate 300 'a')).data.take 200 ++
        (if 200 < (String.mk (List.replicate 300 'a')).data.length
          then "...".data else []))).length = 203 := by
  have hp : (create_fallback_transaction
        (String.mk (List.replicate 300 'a')) "" "" 0).data
      = some (String.mk ((String.mk (List.replicate 300 'a')).data.take 200 ++
        (if 200 < (String.mk (List.replicate 300 'a')).data.length
          then "...".data else []))) := rfl
  refine ⟨hp, ?_⟩
  exact (C6_fallback_truncation _ "" "" 0 _ hp).2.1 (by decide)

/-- C7: History Buffer eviction — starting from the empty store,
appending any 15 records leaves exactly the last 10 of them, in order,
as the storage (the 5 oldest evicted), while the counter reads 15. -/
theorem C7_history_eviction (ts : List TransactionData) (h : ts.length = 15) :
    List.foldl receive_step emptyStore ts =
      { transaction_counter := 15, transaction_storage := ts.drop 5 } := by
  have hc := receive_fold_counter ts emptyStore
  have hs := receive_fold_storage ts emptyStore (by simp [emptyStore])
  have hev : evict (emptyStore.transaction_storage ++ ts) = ts.drop 5 := by
    show evict ([] ++ ts) = ts.drop 5
    rw [List.nil_append]
    unfold evict
    rw [if_pos (by omega), h]
  have heta : List.foldl receive_step emptyStore ts =
      { transaction_counter :=
          (List.foldl receive_step emptyStore ts).transaction_counter,
        transaction_storage :=
          (List.foldl receive_step emptyStore ts).transaction_storage } := rfl
  rw [heta, hc, hs, hev]
  simp [emptyStore, h]

/-- Fifteen concrete records distinguished by their timestamps, used as
input of the eviction witness. -/
def c7WitnessRecords : List TransactionData :=
  (List.range 15).map (fun i => { received_at := i })

/-- C7 witness: appending the 15 concrete records to the empty store
leaves the last 10 of them and the counter at 15. -/
theorem C7_history_eviction_witness :
    List.foldl receive_step emptyStore c7WitnessRecords =
      { transaction_counter := 15,
        transaction_storage := c7WitnessRecords.drop 5 } :=
  C7_history_eviction c7WitnessRecords (by simp [c7WitnessRecords])

/-- C10: Empty-valued fields resolve to the sentinel — the extractor
never returns the empty string for any raw text and field name, because
both capture groups require at least one non-quote character; and for
each of the five known field names, a declaration carrying an empty
quoted value in either form (with no other occurrence of the field)
yields the sentinel. -/
theorem C10_empty_value_sentinel (raw f : String) :
    extract_string_value raw f ≠ "" ∧
    ∀ g ∈ (["authorizer_usrnbr", "creat_usrnbr", "creat_time", "data",
        "usrname"] : List String),
      extract_string_value (String.mk (bareDeclL g.data [] [' '] [])) g
        = "UNKNOWN" ∧
      extract_string_value
        (String.mk (wrappedDeclL g.data [] [' '] [] [] [' '] [] [])) g
        = "UNKNOWN" := by
  constructor
  · intro hcontra
    cases h1 : reSearch (pattern1 f) raw.data with
    | some v =>
      have hv := reSearch_cap_ne_nil (pattern1 f) raw.data v (by simp [pattern1]) h1
      simp only [extract_string_value, h1] at hcontra
      exact hv (by simpa using congrArg String.data hcontra)
    | none =>
      cases h2 : reSearch (pattern2 f) raw.data with
      | some v =>
        have hv := reSearch_cap_ne_nil (pattern2 f) raw.data v (by simp [pattern2]) h2
        simp only [extract_string_value, h1, h2] at hcontra
        exact hv (by simpa using congrArg String.data hcontra)
      | none =>
        simp only [extract_string_value, h1, h2] at hcontra
        exact absurd hcontra (by decide)
  · decide

/-- C10 witness: the field usrname declared with an empty bare value
resolves to the sentinel. -/
theorem C10_empty_value_sentinel_witness :
    extract_string_value (String.mk (bareDeclL "usrname".data [] [' '] []))
      "usrname" = "UNKNOWN" :=
  ((C10_empty_value_sentinel "" "usrname").2 "usrname" (by decide)).1

/-- C5: Strategy precedence — for inputs containing both a wrapped-form
and a bare-form declaration of the same field name (in either textual
order, separated by a comma and a space), the extractor returns the
wrapped form's value, because pattern 1 is searched first over the
whole text.  The field name starts with a character that is not
whitespace, not a colon, not a comma and not a quote, and the bare
value does not begin with the field name followed by its closing quote;
these side conditions rule out accidental wrapped-form matches
straddling the bare declaration. -/
theorem C5_wrapped_wins (c0 : Char) (frest u bw1 bw2 w1 w2 w3 w4 w5 w6 v : List Char)
    (hc_ws : isWS c0 = false) (hc_colon : c0 ≠ ':') (hc_comma : c0 ≠ ',')
    (hc_q : c0 ≠ dquote)
    (hf_q : ∀ c ∈ frest, c ≠ dquote)
    (hu_q : ∀ c ∈ u, c ≠ dquote) (hu_ne : u ≠ [])
    (hu_lead : isLead (c0 :: frest) (u ++ [dquote]) = false)
    (hb1 : ∀ c ∈ bw1, isWS c = true) (hb2 : ∀ c ∈ bw2, isWS c = true)
    (h1 : ∀ c ∈ w1, isWS c = true) (h2 : ∀ c ∈ w2, isWS c = true)
    (h3 : ∀ c ∈ w3, isWS c = true) (h4 : ∀ c ∈ w4, isWS c = true)
    (h5 : ∀ c ∈ w5, isWS c = true) (h6 : ∀ c ∈ w6, isWS c = true)
    (hv : v ≠ []) (hvq : ∀ c ∈ v, c ≠ dquote) :
    extract_string_value
      (String.mk (wrappedDeclL (c0 :: frest) w1 w2 w3 w4 w5 w6 v ++
        (',' :: ' ' :: bareDeclL (c0 :: frest) bw1 bw2 u)))
      (String.mk (c0 :: frest)) = String.mk v ∧
    extract_string_value
      (String.mk (bareDeclL (c0 :: frest) bw1 bw2 u ++
        (',' :: ' ' :: wrappedDeclL (c0 :: frest) w1 w2 w3 w4 w5 w6 v)))
      (String.mk (c0 :: frest)) = String.mk v := by
  have hfq_all : ∀ c ∈ c0 :: frest, c ≠ dquote := by
    intro c hc
    rcases List.mem_cons.mp hc with h | h
    · rw [h]; exact hc_q
    · exact hf_q c h
  constructor
  · -- wrapped form textually first: pattern 1 matches at position 0
    have hmA := matchToks_p1_decl (c0 :: frest) w1 w2 w3 w4 w5 w6 v
      (',' :: ' ' :: bareDeclL (c0 :: frest) bw1 bw2 u) h1 h2 h3 h4 h5 h6 hv hvq
    have hsA := reSearch_of_matchToks _ _ _ hmA
    simp [extract_string_value, string_data_mk, hsA]
  · -- bare form textually first: the scan fails at every position of
    -- the bare declaration and succeeds at the wrapped one
    have s1 : matchToks (pattern1 (String.mk (c0 :: frest)))
        (dquote :: ((c0 :: frest) ++ dquote :: (bw1 ++ ':' :: (bw2 ++ dquote ::
          (u ++ dquote :: (',' :: ' ' ::
            wrappedDeclL (c0 :: frest) w1 w2 w3 w4 w5 w6 v)))))) = none := by
      show matchToks (Tok.lit dquote :: (lits (c0 :: frest) ++ _)) _ = none
      rw [matchToks_lit_self, matchToks_lits_self, matchToks_lit_self,
        matchToks_ws_stop _ _ _ _ hb1 (by decide), matchToks_lit_self,
        matchToks_ws_stop _ _ _ _ hb2 (by decide)]
      simp only [matchToks]
      rw [if_neg (by decide)]
    have s4 : matchToks (pattern1 (String.mk (c0 :: frest)))
        (dquote :: (bw1 ++ ':' :: (bw2 ++ dquote :: (u ++ dquote ::
          (',' :: ' ' :: wrappedDeclL (c0 :: frest) w1 w2 w3 w4 w5 w6 v)))))
        = none := by
      show matchToks (Tok.lit dquote :: (lits (c0 :: frest) ++ _)) _ = none
      rw [matchToks_lit_self]
      apply matchToks_lits_none
      cases bw1 with
      | nil => exact isLead_cons_ne c0 ':' frest _ (Ne.symm hc_colon)
      | cons b bs =>
        have hbws := hb1 b (by simp)
        have hb : b ≠ c0 := by
          intro hbc
          rw [hbc, hc_ws] at hbws
          exact Bool.false_ne_true hbws
        exact isLead_cons_ne c0 b frest _ hb
    have s7 : matchToks (pattern1 (String.mk (c0 :: frest)))
        (dquote :: (u ++ dquote ::
          (',' :: ' ' :: wrappedDeclL (c0 :: frest) w1 w2 w3 w4 w5 w6 v)))
        = none := by
      show matchToks (Tok.lit dquote :: (lits (c0 :: frest) ++ _)) _ = none
      rw [matchToks_lit_self]
      apply matchToks_lits_none
      exact isLead_extend_dquote (c0 :: frest) u
        (',' :: ' ' :: wrappedDeclL (c0 :: frest) w1 w2 w3 w4 w5 w6 v)
        hfq_all hu_lead
    have s9 : matchToks (pattern1 (String.mk (c0 :: frest)))
        (dquote :: (',' :: ' ' :: wrappedDeclL (c0 :: frest) w1 w2 w3 w4 w5 w6 v))
        = none := by
      show matchToks (Tok.lit dquote :: (lits (c0 :: frest) ++ _)) _ = none
      rw [matchToks_lit_self]
      apply matchToks_lits_none
      exact isLead_cons_ne c0 ',' frest _ (Ne.symm hc_comma)
    have e1 : reSearch (pattern1 (String.mk (c0 :: frest)))
        ((c0 :: frest) ++ (dquote :: (bw1 ++ ':' :: (bw2 ++ dquote ::
          (u ++ dquote :: (',' :: ' ' ::
            wrappedDeclL (c0 :: frest) w1 w2 w3 w4 w5 w6 v))))))
        = reSearch (pattern1 (String.mk (c0 :: frest)))
          (dquote :: (bw1 ++ ':' :: (bw2 ++ dquote :: (u ++ dquote ::
            (',' :: ' ' :: wrappedDeclL (c0 :: frest) w1 w2 w3 w4 w5 w6 v))))) :=
      reSearch_skip dquote _ (c0 :: frest) _ hfq_all
    have hblock : ∀ c ∈ bw1 ++ ':' :: bw2, c ≠ dquote := by
      intro c hc
      rcases List.mem_append.mp hc with h | h
      · exact ws_ne_dquote c (hb1 c h)
      · rcases List.mem_cons.mp h with h' | h'
        · rw [h']; decide
        · exact ws_ne_dquote c (hb2 c h')
    have e2 : reSearch (pattern1 (String.mk (c0 :: frest)))
        ((bw1 ++ ':' :: bw2) ++ (dquote :: (u ++ dquote ::
          (',' :: ' ' :: wrappedDeclL (c0 :: frest) w1 w2 w3 w4 w5 w6 v))))
        = reSearch (pattern1 (String.mk (c0 :: frest)))
          (dquote :: (u ++ dquote ::
            (',' :: ' ' :: wrappedDeclL (c0 :: frest) w1 w2 w3 w4 w5 w6 v))) :=
      reSearch_skip dquote _ (bw1 ++ ':' :: bw2) _ hblock
    have e3 : reSearch (pattern1 (String.mk (c0 :: frest)))
        (u ++ (dquote :: (',' :: ' ' ::
          wrappedDeclL (c0 :: frest) w1 w2 w3 w4 w5 w6 v)))
        = reSearch (pattern1 (String.mk (c0 :: frest)))
          (dquote :: (',' :: ' ' ::
            wrappedDeclL (c0 :: frest) w1 w2 w3 w4 w5 w6 v)) :=
      reSearch_skip dquote _ u _ hu_q
    have e4 : reSearch (pattern1 (String.mk (c0 :: frest)))
        (([',', ' '] : List Char) ++ wrappedDeclL (c0 :: frest) w1 w2 w3 w4 w5 w6 v)
        = reSearch (pattern1 (String.mk (c0 :: frest)))
          (wrappedDeclL (c0 :: frest) w1 w2 w3 w4 w5 w6 v) :=
      reSearch_skip dquote _ [',', ' '] _ (by decide)
    have e5 : reSearch (pattern1 (String.mk (c0 :: frest)))
        (wrappedDeclL (c0 :: frest) w1 w2 w3 w4 w5 w6 v) = some v := by
      have hm := matchToks_p1_decl (c0 :: frest) w1 w2 w3 w4 w5 w6 v []
        h1 h2 h3 h4 h5 h6 hv hvq
      rw [List.append_nil] at hm
      exact reSearch_of_matchToks _ _ _ hm
    have hTN : bareDeclL (c0 :: frest) bw1 bw2 u ++
        (',' :: ' ' :: wrappedDeclL (c0 :: frest) w1 w2 w3 w4 w5 w6 v)
        = dquote :: ((c0 :: frest) ++ dquote :: (bw1 ++ ':' :: (bw2 ++ dquote ::
          (u ++ dquote :: (',' :: ' ' ::
            wrappedDeclL (c0 :: frest) w1 w2 w3 w4 w5 w6 v))))) := by
      simp [bareDeclL]
    have hassoc : bw1 ++ ':' :: (bw2 ++ dquote :: (u ++ dquote ::
        (',' :: ' ' :: wrappedDeclL (c0 :: frest) w1 w2 w3 w4 w5 w6 v)))
        = (bw1 ++ ':' :: bw2) ++ (dquote :: (u ++ dquote ::
          (',' :: ' ' :: wrappedDeclL (c0 :: frest) w1 w2 w3 w4 w5 w6 v))) := by
      simp
    have sB : reSearch (pattern1 (String.mk (c0 :: frest)))
        (bareDeclL (c0 :: frest) bw1 bw2 u ++
          (',' :: ' ' :: wrappedDeclL (c0 :: frest) w1 w2 w3 w4 w5 w6 v))
        = some v := by
      rw [hTN, reSearch_cons_none _ _ _ s1, e1,
        reSearch_cons_none _ _ _ s4, hassoc, e2,
        reSearch_cons_none _ _ _ s7, e3,
        reSearch_cons_none _ _ _ s9]
      show reSearch (pattern1 (String.mk (c0 :: frest)))
        (([',', ' '] : List Char) ++
          wrappedDeclL (c0 :: frest) w1 w2 w3 w4 w5 w6 v) = some v
      rw [e4]
      exact e5
    simp [extract_string_value, string_data_mk, sB]

/-- C5 witness: on the adversarial input carrying the bare declaration
of usrname with value bob before the wrapped declaration with value
wrapped, and on the input with the two declarations in the opposite
order, the extractor returns the wrapped value both times. -/
theorem C5_wrapped_wins_witness :
    extract_string_value
      (String.mk (wrappedDeclL ('u' :: "srname".data) [] [' '] [] [] [' '] []
        "wrapped".data ++
        (',' :: ' ' :: bareDeclL ('u' :: "srname".data) [] [' '] "bob".data)))
      (String.mk ('u' :: "srname".data)) = String.mk "wrapped".data ∧
    extract_string_value
      (String.mk (bareDeclL ('u' :: "srname".data) [] [' '] "bob".data ++
        (',' :: ' ' :: wrappedDeclL ('u' :: "srname".data) [] [' '] [] [] [' '] []
          "wrapped".data)))
      (String.mk ('u' :: "srname".data)) = String.mk "wrapped".data :=
  C5_wrapped_wins 'u' "srname".data "bob".data [] [' '] [] [' '] [] [] [' '] []
    "wrapped".data
    (by decide) (by decide) (by decide) (by decide) (by decide) (by decide)
    (by decide) (by decide) (by decide) (by decide) (by decide) (by decide)
    (by decide) (by decide) (by decide) (by decide) (by decide) (by decide)
